import Mathlib

/-!
Shallow embedding of `src/main.rs` (mlua_play): a JSON document pipeline in
which Lua scripts manipulate shared JSON trees through `SharedValue` handles
(a shared root cell plus a path of navigation steps).

The embedding models:
* `serde_json::Value` (with its three-variant `Number`: `PosInt(u64)`,
  `NegInt(i64)`, `Float(f64)`), objects as `BTreeMap<String, Value>`
  represented by key-sorted association lists;
* `f64` at the bit level (only finiteness classification and the integer
  casts are needed by the code);
* `SharedValue` operations `take` / `resolve` / `resolve_mut` / `subhandle`,
  with the `RefCell` runtime borrow flag made explicit for `resolve_mut`;
* the Lua value type and the conversions `json_to_lua`, `lua_to_json`,
  `json_subhandle_to_lua`;
* the `MetaMethod::NewIndex` handler, the `__pairs_impl` snapshot iterator,
  and the `emit` / `emit_clone` closures of `run`.
-/

/-- IEEE-754 binary64 value, represented by its 64 raw bits (`< 2^64`). -/
structure F64 where
  bits : Nat
deriving DecidableEq, Repr

/-- The 11-bit exponent field of an `F64`. -/
def F64.expField (f : F64) : Nat := f.bits / 2 ^ 52 % 2 ^ 11

/-- Rust `f64::is_finite`: the exponent field is not all ones. -/
def F64.isFinite (f : F64) : Bool := f.expField ≠ 2047

/-- The cast `u64 as f64`: round-to-nearest-even conversion of a nonnegative integer
to binary64 bits.  (Every `u64` is far below the overflow threshold, so the
result is always finite.) -/
def F64.ofNat (n : Nat) : F64 :=
  if n = 0 then ⟨0⟩
  else
    let k := Nat.log2 n
    if k ≤ 52 then
      ⟨(k + 1023) * 2 ^ 52 + (n * 2 ^ (52 - k) - 2 ^ 52)⟩
    else
      let sh := k - 52
      let q := n / 2 ^ sh
      let r := n % 2 ^ sh
      let half := 2 ^ (sh - 1)
      let q2 := if half < r ∨ (r = half ∧ q % 2 = 1) then q + 1 else q
      if q2 = 2 ^ 53 then ⟨(k + 1024) * 2 ^ 52⟩
      else ⟨(k + 1023) * 2 ^ 52 + (q2 - 2 ^ 52)⟩

/-- The cast `i64 as f64`: sign bit plus conversion of the magnitude. -/
def F64.ofInt (i : Int) : F64 :=
  if 0 ≤ i then F64.ofNat i.toNat
  else ⟨(F64.ofNat (-i).toNat).bits + 2 ^ 63⟩

/-- Rust `serde_json::Number`'s internal representation `N`:
`PosInt(u64) | NegInt(i64) | Float(f64)` (the `NegInt` variant only ever
holds negative values, `Float` only finite ones; `PosInt` holds `< 2^64`). -/
inductive JNumber where
  | posInt (n : Nat)
  | negInt (i : Int)
  | float (f : F64)
deriving DecidableEq, Repr

/-- Rust `Number::as_i64`: `PosInt` if it fits in `i64`, `NegInt` always,
`Float` never. -/
def JNumber.as_i64 : JNumber → Option Int
  | .posInt n => if n ≤ 2 ^ 63 - 1 then some (n : Int) else none
  | .negInt i => some i
  | .float _ => none

/-- Rust `Number::as_f64` (always `Some` for the three variants; the `unwrap` in
the code is therefore total): integer variants are cast to `f64`. -/
def JNumber.as_f64 : JNumber → F64
  | .posInt n => F64.ofNat n
  | .negInt i => F64.ofInt i
  | .float f => f

/-- Rust `impl From<i64> for Number`: negative values become `NegInt`,
nonnegative ones `PosInt`. -/
def JNumber.fromI64 (i : Int) : JNumber :=
  if i < 0 then .negInt i else .posInt i.toNat

/-- Rust `Number::from_f64`: finite floats are accepted, NaN/±∞ rejected. -/
def JNumber.from_f64 (f : F64) : Option JNumber :=
  if f.isFinite then some (.float f) else none

/-- Rust `serde_json::Value`.  Objects are `BTreeMap<String, Value>`, modelled as
association lists kept sorted by key. -/
inductive Value where
  | null
  | bool (b : Bool)
  | num (n : JNumber)
  | str (s : String)
  | arr (elems : List Value)
  | obj (entries : List (String × Value))
deriving Repr

/-- One navigation step of a `SharedValue` path. -/
inductive PathElement where
  | key (k : String)
  | index (i : Nat)
deriving DecidableEq, Repr

/-- The error taxonomy of the spec, as surfaced through the Lua layer. -/
inductive Fault where
  | scriptLoadFailure
  | scriptRuntimeFailure
  | borrowConflict
  | pathResolutionFailure
deriving DecidableEq, Repr

/-- Lexicographic codepoint order on char lists.  For UTF-8 strings this
coincides with Rust's bytewise `Ord` on `String`, the order `BTreeMap`
keys live in. -/
def charListLt : List Char → List Char → Bool
  | _, [] => false
  | [], _ :: _ => true
  | a :: as, b :: bs => a.val < b.val || (a.val = b.val && charListLt as bs)

/-- Rust's `Ord` on `String` (bytewise = codepoint-lexicographic). -/
def strLt (a b : String) : Bool := charListLt a.data b.data

namespace Smap

/-- Rust `BTreeMap::get`: lookup in the sorted association list. -/
def find : List (String × Value) → String → Option Value
  | [], _ => none
  | (k', v') :: rest, k => if k = k' then some v' else find rest k

/-- Rust `BTreeMap::insert`: insert keeping keys sorted; an existing key's value
is replaced. -/
def insert : List (String × Value) → String → Value → List (String × Value)
  | [], k, v => [(k, v)]
  | (k', v') :: rest, k, v =>
    if strLt k k' then (k, v) :: (k', v') :: rest
    else if k = k' then (k, v) :: rest
    else (k', v') :: insert rest k v

/-- Rust `BTreeMap::get_mut` followed by assignment through the reference:
replace the value of an existing key in place (a missing key changes
nothing — `get_mut` would have returned `None`). -/
def update : List (String × Value) → String → Value → List (String × Value)
  | [], _, _ => []
  | (k', v') :: rest, k, v =>
    if k = k' then (k, v) :: rest else (k', v') :: update rest k v

end Smap

/-- Rust `Value::get` with a string key: object lookup, `None` on other nodes. -/
def Value.getKey : Value → String → Option Value
  | .obj m, k => Smap.find m k
  | _, _ => none

/-- Rust `Value::get` with a `usize` index: array lookup, `None` on other nodes. -/
def Value.getIdx : Value → Nat → Option Value
  | .arr a, i => a.get? i
  | _, _ => none

/-- Function `remove_by_key` (src/main.rs): on an object, `map.remove(key)` returns
the removed child value; on anything else `None`.  (The truncated map itself
is dropped by the caller.) -/
def remove_by_key (value : Value) (key : String) : Option Value :=
  match value with
  | .obj m => Smap.find m key
  | _ => none

/-- Function `remove_by_index` (src/main.rs): on an array with `index < len`,
`arr.remove(index)` returns the removed element; otherwise `None`.
(The shifted remainder of the array is dropped by the caller.) -/
def remove_by_index (value : Value) (index : Nat) : Option Value :=
  match value with
  | .arr a => if index < a.length then a.get? index else none
  | _ => none

/-- The loop of `SharedValue::take`: starting from the value taken out of
the root cell, repeatedly replace the carried node by the child removed at
the next path element (`unwrap` panics — modelled by `none` — when a step
fails). -/
def takeWalk : Value → List PathElement → Option Value
  | node, [] => some node
  | node, .key k :: rest => (remove_by_key node k).bind (takeWalk · rest)
  | node, .index i :: rest => (remove_by_index node i).bind (takeWalk · rest)

/-- Method `SharedValue::take`: `self.root.take()` replaces the shared root cell's
contents by `Value`'s default (`Null`) and hands the old contents to the
removal walk.  Result: (value carried out of the walk, contents left in the
shared root cell). -/
def SharedValue.take (root : Value) (path : List PathElement) :
    Option Value × Value :=
  (takeWalk root path, Value.null)

/-- The walk of `SharedValue::resolve` / `resolve_mut`: follow `get` /
`get_mut` along the path (`unwrap` on a failing step — modelled by
`none`). -/
def resolveWalk : Value → List PathElement → Option Value
  | node, [] => some node
  | node, .key k :: rest => (node.getKey k).bind (resolveWalk · rest)
  | node, .index i :: rest => (node.getIdx i).bind (resolveWalk · rest)

/-- The runtime borrow flag of the root's `RefCell` (std semantics):
`0` = no outstanding borrow, `n > 0` = `n` outstanding shared borrows,
`-1` = an outstanding mutable borrow. -/
abbrev BorrowFlag := Int

/-- Method `SharedValue::resolve_mut`: `self.root.borrow_mut()` fails (a
`BorrowMutError` panic, surfaced as a Lua error) whenever any borrow of the
same root cell is outstanding; otherwise the walk runs under the exclusive
borrow (flag `-1`) and a failing step panics (`PathResolutionFailure`). -/
def SharedValue.resolve_mut (flag : BorrowFlag) (root : Value)
    (path : List PathElement) : Except Fault (Value × BorrowFlag) :=
  if flag = 0 then
    match resolveWalk root path with
    | some v => .ok (v, -1)
    | none => .error .pathResolutionFailure
  else .error .borrowConflict

/-- Method `SharedValue::subhandle`: share the root, extend the path by one
element. -/
def SharedValue.subhandle (path : List PathElement) (elem : PathElement) :
    List PathElement :=
  path ++ [elem]

/-- The userdata contents this program distinguishes: a `SharedValue` view
over the live document root (identified by its path), or a userdata of any
other Rust type (whose `borrow::<SharedValue>()` fails). -/
inductive UD where
  | shared (path : List PathElement)
  | foreign
deriving DecidableEq, Repr

/-- Type `mlua::Value`, restricted to the variants the code distinguishes
(`Function`/`Thread`/`LightUserData`/`Error` all land in the same `_` arms
as `userdata .foreign` does, wherever they are matched). -/
inductive LuaValue where
  | nil
  | boolean (b : Bool)
  | integer (i : Int)
  | number (f : F64)
  | string (s : String)
  | table (entries : List (LuaValue × LuaValue))
  | userdata (u : UD)
deriving Repr

/-- The loop `map.insert((i+1).to_string(), v)` for each enumerated element of the
collected array prefix, executed when `lua_to_json` ends on a non-array
table (the `!arr.is_empty()` guard is the identity for an empty prefix). -/
def reinsertArr (m : List (String × Value)) (arr : List Value) :
    List (String × Value) :=
  arr.enum.foldl (fun m p => Smap.insert m (toString (p.1 + 1)) p.2) m

mutual

/-- Function `lua_to_json` (src/main.rs): scalars convert directly (non-finite
floats collapse to `Null` via `Number::from_f64`), tables run the
array/object classification loop, and every other variant — including any
userdata, hence also `SharedValue` views — falls to the `_ => Value::Null`
arm. -/
def lua_to_json : LuaValue → Value
  | .nil => .null
  | .boolean b => .bool b
  | .integer i => .num (JNumber.fromI64 i)
  | .number f => ((JNumber.from_f64 f).map Value.num).getD Value.null
  | .string s => .str s
  | .table t => tableLoop t [] [] true
  | .userdata _ => .null

/-- The `for pair in t.pairs()` loop of `lua_to_json`'s `Table` arm, with
its state (`arr`, `map`, `is_array`) made explicit: a positive integer key
extends the array while `(i-1) as usize` equals `arr.len()` and the table
is still classified as an array, and otherwise inserts under the
stringified key; a string key inserts under the key; any other key only
clears `is_array` (its value is dropped).  At the end an array-classified
table yields `Array(arr)`, otherwise the collected prefix is re-inserted
into the map under stringified 1-based indices and the result is
`Object(map)`. -/
def tableLoop :
    List (LuaValue × LuaValue) → List Value → List (String × Value) → Bool →
    Value
  | [], arr, map, is_array =>
    if is_array then .arr arr else .obj (reinsertArr map arr)
  | (k, v) :: rest, arr, map, is_array =>
    let value := lua_to_json v
    match k with
    | .integer i =>
      if 0 < i then
        let idx := (i - 1).toNat
        let ia := if idx ≠ arr.length then false else is_array
        if ia then tableLoop rest (arr ++ [value]) map ia
        else tableLoop rest arr (Smap.insert map (toString i) value) ia
      else tableLoop rest arr map false
    | .string s => tableLoop rest arr (Smap.insert map s value) false
    | _ => tableLoop rest arr map false

end

/-- Function `json_subhandle_to_lua`: scalars convert by value (integers when
`as_i64` succeeds, floats otherwise); a container child becomes a fresh
userdata wrapping `parent.subhandle(elem)` — the parent's root with the
path extended by `elem`. -/
def json_subhandle_to_lua (parentPath : List PathElement) (val : Value)
    (elem : PathElement) : LuaValue :=
  match val with
  | .null => .nil
  | .bool b => .boolean b
  | .num n =>
    match n.as_i64 with
    | some i => .integer i
    | none => .number n.as_f64
  | .str s => .string s
  | .arr _ => .userdata (.shared (SharedValue.subhandle parentPath elem))
  | .obj _ => .userdata (.shared (SharedValue.subhandle parentPath elem))

/-- Function `json_to_lua`: scalars convert directly; an `Array`/`Object` becomes a
userdata wrapping `SharedValue::new(val)` — a fresh root whose cell holds
`val` and whose path is empty.  (In `run` this is only reached through
`get_next`, so the fresh root is the live root of the current document and
the handle is the ambient root with the empty path.) -/
def json_to_lua : Value → LuaValue
  | .null => .nil
  | .bool b => .boolean b
  | .num n =>
    match n.as_i64 with
    | some i => .integer i
    | none => .number n.as_f64
  | .str s => .string s
  | .arr _ => .userdata (.shared [])
  | .obj _ => .userdata (.shared [])

/-- serde `Value`'s `IndexMut` with a string key (`node[key_str] = new_val`):
an `Object` inserts or overwrites the slot, `Null` is first replaced by an
empty object, and any other node panics (modelled by `none`). -/
def indexMutStr (node : Value) (k : String) (v : Value) : Option Value :=
  match node with
  | .obj m => some (.obj (Smap.insert m k v))
  | .null => some (.obj (Smap.insert [] k v))
  | _ => none

/-- The `MetaMethod::NewIndex` handler body acting on the node produced by
`resolve_mut` (the write-back through the `RefMut` chain is `modifyAt`):
convert the incoming value with `lua_to_json`; a string key runs
`node[key_str] = new_val`; an integer key computes `(i - 1) as usize` (a
wrapping cast) and overwrites an existing array slot if `idx < arr.len()`,
doing nothing otherwise (also on non-array nodes); any other key does
nothing.  `none` models a panic. -/
def newIndexHandler (node : Value) (key val : LuaValue) : Option Value :=
  let new_val := lua_to_json val
  match key with
  | .string s => indexMutStr node s new_val
  | .integer i =>
    let idx := ((i - 1) % 2 ^ 64).toNat
    some
      (match node with
       | .arr a => if idx < a.length then .arr (a.set idx new_val) else .arr a
       | other => other)
  | _ => some node

/-- Mutation at a path: `resolve_mut`'s walk reaches the node at `path`
through a chain of `RefMut`s, and a mutation of that node is a mutation of
the corresponding child inside the live root.  `modifyAt root path f`
rebuilds the root with the node at `path` replaced by `f node` (`none` when
a step of the walk fails — the `unwrap` panic — or when `f` panics). -/
def modifyAt : Value → List PathElement → (Value → Option Value) → Option Value
  | node, [], f => f node
  | node, .key k :: rest, f =>
    match node with
    | .obj m =>
      (Smap.find m k).bind fun child =>
        (modifyAt child rest f).map fun c2 => .obj (Smap.update m k c2)
    | _ => none
  | node, .index i :: rest, f =>
    match node with
    | .arr a =>
      (a.get? i).bind fun child =>
        (modifyAt child rest f).map fun c2 => .arr (a.set i c2)
    | _ => none

/-- The whole `NewIndex` metamethod observed at the root: resolve the
view's path mutably and apply the handler to the resolved node, the
mutation landing in the live root. -/
def newIndexThrough (root : Value) (viewPath : List PathElement)
    (key val : LuaValue) : Option Value :=
  modifyAt root viewPath fun node => newIndexHandler node key val

/-- The item list of `__pairs_impl`'s iterator over a snapshot value `val`
cloned out of the view: an object snapshot yields
`(String k, json_subhandle_to_lua this v (Key k))` per entry, an array
snapshot yields `(Integer (i+1), json_subhandle_to_lua this v (Index i))`
per enumerated element, anything else yields nothing. -/
def pairsImplList (viewPath : List PathElement) : Value →
    List (LuaValue × LuaValue)
  | .obj m =>
    m.map fun p => (.string p.1, json_subhandle_to_lua viewPath p.2 (.key p.1))
  | .arr a =>
    a.enum.map fun p =>
      (.integer ((p.1 : Int) + 1), json_subhandle_to_lua viewPath p.2 (.index p.1))
  | _ => []

/-- Method `__pairs_impl`: `this.resolve().clone()` snapshots the resolved node
(`none` models the unwrap panic), and the iterator ranges over the
snapshot's item list. -/
def pairsImpl (root : Value) (viewPath : List PathElement) :
    Option (List (LuaValue × LuaValue)) :=
  (resolveWalk root viewPath).map (pairsImplList viewPath)

/-- A run of the `make_iter` iterator: the closure owns the snapshot item
list, so each call yields the next item while the script body may mutate
the live root arbitrarily between calls (`muts` is the list of those
mutations).  Returns the items visited, in order, and the final root. -/
def iterateWithMutations :
    List (LuaValue × LuaValue) → List (Value → Value) → Value →
    List (LuaValue × LuaValue) × Value
  | [], _, root => ([], root)
  | item :: rest, muts, root =>
    let root2 := (muts.headD id) root
    let (visited, rootF) := iterateWithMutations rest muts.tail root2
    (item :: visited, rootF)

/-- The argument of `emit` / `emit_clone` as the closures discriminate it:
a userdata that borrows as a `SharedValue` of the live root, a userdata of
any other type, or a plain (non-userdata) Lua value. -/
inductive EmitArg where
  | plain (v : LuaValue)
  | view (path : List PathElement)
  | foreign

/-- The `emit_clone` closure of `run`: a `SharedValue` userdata is resolved
immutably and a clone of the referenced value is pushed (the resolve
`unwrap` panic surfaces as a script fault); a foreign userdata fails
`borrow::<SharedValue>()` and `map_or` pushes `Value::Null`; a plain value
goes through `lua_to_json`.  Returns the root and output after the call. -/
def emit_clone (root : Value) (out : List Value) :
    EmitArg → Except Fault (Value × List Value)
  | .view p =>
    match resolveWalk root p with
    | some v => .ok (root, out ++ [v])
    | none => .error .scriptRuntimeFailure
  | .foreign => .ok (root, out ++ [.null])
  | .plain v => .ok (root, out ++ [lua_to_json v])

/-- The `emit` closure of `run`: a `SharedValue` userdata is cloned
(sharing the root cell) and `take`n — the root cell is left `Null` and the
extracted value is pushed (a failing removal step panics after the cell was
already emptied); a foreign userdata pushes `Value::Null`; a plain value
goes through `lua_to_json`. -/
def emit (root : Value) (out : List Value) :
    EmitArg → Except Fault (Value × List Value)
  | .view p =>
    match SharedValue.take root p with
    | (some v, cell) => .ok (cell, out ++ [v])
    | (none, _) => .error .scriptRuntimeFailure
  | .foreign => .ok (root, out ++ [.null])
  | .plain v => .ok (root, out ++ [lua_to_json v])

/-- The observable behavior of one execution of the script text: the
documents it pushed into the output vector (in order) before finishing or
faulting, and the fault, if any, that `lua.load(script).exec()` returned. -/
structure ScriptExec where
  emitted : List Value
  fault : Option Fault

/-- The driver `run`: after setup, `lua.load(script).exec()?` propagates a
load failure (the script never runs) or a runtime fault with `?`, so the
function returns `Err` and the internally collected output vector is
dropped; only a fault-free execution reaches `Ok(output)`, the emitted
documents in emission order. -/
def run (loadFault : Option Fault) (exec : ScriptExec) :
    Except Fault (List Value) :=
  match loadFault with
  | some e => .error e
  | none =>
    match exec.fault with
    | some e => .error e
    | none => .ok exec.emitted

/-- Scalar (non-container) document values. -/
def Value.isScalar : Value → Bool
  | .arr _ => false
  | .obj _ => false
  | _ => true

/-- The invariants serde maintains on its number representation restricted
to `i64`-range integers: `PosInt` within `i64::MAX`, `NegInt` negative and
within `i64::MIN`, `Float` finite (`from_f64` and deserialization only ever
produce finite floats). -/
def JNumber.fitsI64 : JNumber → Bool
  | .posInt n => decide (n ≤ 2 ^ 63 - 1)
  | .negInt i => decide (-(2 ^ 63) ≤ i ∧ i < 0)
  | .float f => f.isFinite

/-- A top-level number (if any) satisfies `JNumber.fitsI64`. -/
def Value.scalarNumOk : Value → Bool
  | .num n => n.fitsI64
  | _ => true

/-- Table entries whose keys are the contiguous integers `k+1, k+2, ...`
paired with the given values — a Lua sequence shifted to start at `k+1`. -/
def enumKeys (k : Nat) : List LuaValue → List (LuaValue × LuaValue)
  | [] => []
  | v :: vs => (.integer ((k : Int) + 1), v) :: enumKeys (k + 1) vs

/-- The classification loop restricted to its behavior once `is_array` is
false: positive-integer and string keys insert into the map (under the
stringified key resp. the key) and every other key drops its value; the
collected array prefix is no longer touched. -/
def objLoop :
    List (LuaValue × LuaValue) → List (String × Value) → List (String × Value)
  | [], m => m
  | (k, v) :: rest, m =>
    let value := lua_to_json v
    match k with
    | .integer i =>
      if 0 < i then objLoop rest (Smap.insert m (toString i) value)
      else objLoop rest m
    | .string s => objLoop rest (Smap.insert m s value)
    | _ => objLoop rest m

/-- The table keys of `lua_to_json` that carry no value into the result: a
non-positive integer, or any key that is neither an integer nor a string. -/
def discardedKey : LuaValue → Bool
  | .integer i => decide (i ≤ 0)
  | .string _ => false
  | _ => true

/-!  ## Theorems  -/

theorem remove_by_key_eq_getKey (v : Value) (k : String) :
    remove_by_key v k = v.getKey k := by
  cases v <;> rfl

theorem remove_by_index_eq_getIdx (v : Value) (i : Nat) :
    remove_by_index v i = v.getIdx i := by
  cases v <;> try rfl
  next a =>
    by_cases h : i < a.length
    · simp [remove_by_index, Value.getIdx, h]
    · have hn : a.get? i = none := List.get?_eq_none.mpr (by omega)
      simp only [remove_by_index, Value.getIdx, if_neg h, hn]

theorem takeWalk_eq_resolveWalk (root : Value) (path : List PathElement) :
    takeWalk root path = resolveWalk root path := by
  induction path generalizing root with
  | nil => rfl
  | cons e rest ih =>
    cases e with
    | key k =>
      simp only [takeWalk, resolveWalk, remove_by_key_eq_getKey]
      cases root.getKey k <;> simp [ih]
    | index i =>
      simp only [takeWalk, resolveWalk, remove_by_index_eq_getIdx]
      cases root.getIdx i <;> simp [ih]

/-- C1 counterexample: for the root `{"a": {"x": 1}, "b": 2}` and the View
at path `["a"]`, the claim asserts that after `take` the sibling View
`["b"]` still resolves to its previous value `2`.  In the code,
`SharedValue::take` empties the whole root cell (leaving `Null`), so the
sibling View no longer resolves at all. -/
theorem C1_counterexample :
    resolveWalk
        (Value.obj [("a", Value.obj [("x", Value.num (.posInt 1))]),
                    ("b", Value.num (.posInt 2))])
        [PathElement.key "b"] = some (Value.num (.posInt 2)) ∧
    (SharedValue.take
        (Value.obj [("a", Value.obj [("x", Value.num (.posInt 1))]),
                    ("b", Value.num (.posInt 2))])
        [PathElement.key "a"]).1 = some (Value.obj [("x", Value.num (.posInt 1))]) ∧
    resolveWalk
        (SharedValue.take
            (Value.obj [("a", Value.obj [("x", Value.num (.posInt 1))]),
                        ("b", Value.num (.posInt 2))])
            [PathElement.key "a"]).2
        [PathElement.key "b"] ≠ some (Value.num (.posInt 2)) :=
  ⟨rfl, rfl, nofun⟩

/-- C1 (amended): `take()` on a View with path P returns exactly the value
the View resolves to, but it removes the *entire* contents of the Root, not
just the subtree at P: the shared root cell is left `Null` (ancestors and
siblings are dropped along the walk), so afterwards every View of the same
Root with a non-empty path fails to resolve, and the empty-path View
resolves to `Null`. -/
theorem C1_take_empties_root (root : Value) (path : List PathElement) :
    (SharedValue.take root path).1 = resolveWalk root path ∧
    (SharedValue.take root path).2 = Value.null ∧
    (∀ (e : PathElement) (q : List PathElement),
      resolveWalk Value.null (e :: q) = none) ∧
    resolveWalk Value.null [] = some Value.null := by
  refine ⟨takeWalk_eq_resolveWalk root path, rfl, ?_, rfl⟩
  intro e q
  cases e <;> rfl

/-- C3: `resolve_mut` first takes the runtime-checked exclusive borrow of
the root cell: if any other borrow (shared or mutable) of the same Root is
outstanding the call fails immediately with a borrow conflict and nothing
aliases; when no borrow is outstanding it walks the path under the
exclusive borrow and returns the node at the View's path. -/
theorem C3_resolve_mut_borrow (flag : BorrowFlag) (root : Value)
    (path : List PathElement) :
    (flag ≠ 0 →
      SharedValue.resolve_mut flag root path = .error .borrowConflict) ∧
    (∀ v, flag = 0 → resolveWalk root path = some v →
      SharedValue.resolve_mut flag root path = .ok (v, -1)) := by
  constructor
  · intro h
    simp [SharedValue.resolve_mut, h]
  · intro v h0 hres
    simp [SharedValue.resolve_mut, h0, hres]

theorem C3_resolve_mut_borrow_witness :
    SharedValue.resolve_mut 1 (Value.obj []) [] = .error .borrowConflict ∧
    SharedValue.resolve_mut (-1) (Value.obj []) [] = .error .borrowConflict ∧
    SharedValue.resolve_mut 0 (Value.obj []) [] = .ok (Value.obj [], -1) :=
  ⟨(C3_resolve_mut_borrow 1 (Value.obj []) []).1 (by decide),
   (C3_resolve_mut_borrow (-1) (Value.obj []) []).1 (by decide),
   (C3_resolve_mut_borrow 0 (Value.obj []) []).2 (Value.obj []) rfl rfl⟩

/-- C7: `emit_clone` on a live View appends a clone of the value at the
View's path to the output and leaves the root untouched; for every argument
shape a successful call returns the root unchanged, so afterwards every
View of the same Root re-resolves exactly as before. -/
theorem C7_emit_clone_nondestructive (root : Value) (out : List Value)
    (p : List PathElement) (v : Value) (h : resolveWalk root p = some v) :
    emit_clone root out (.view p) = .ok (root, out ++ [v]) ∧
    (∀ (arg : EmitArg) (root2 : Value) (out2 : List Value),
      emit_clone root out arg = .ok (root2, out2) → root2 = root) ∧
    (∀ (arg : EmitArg) (root2 : Value) (out2 : List Value)
        (q : List PathElement),
      emit_clone root out arg = .ok (root2, out2) →
      resolveWalk root2 q = resolveWalk root q) := by
  have hroot : ∀ (arg : EmitArg) (root2 : Value) (out2 : List Value),
      emit_clone root out arg = .ok (root2, out2) → root2 = root := by
    intro arg root2 out2 harg
    cases arg with
    | plain w =>
      simp only [emit_clone, Except.ok.injEq, Prod.mk.injEq] at harg
      exact harg.1.symm
    | view q =>
      cases hq : resolveWalk root q with
      | none => simp [emit_clone, hq] at harg
      | some w =>
        simp only [emit_clone, hq, Except.ok.injEq, Prod.mk.injEq] at harg
        exact harg.1.symm
    | foreign =>
      simp only [emit_clone, Except.ok.injEq, Prod.mk.injEq] at harg
      exact harg.1.symm
  refine ⟨by simp [emit_clone, h], hroot, ?_⟩
  intro arg root2 out2 q harg
  rw [hroot arg root2 out2 harg]

theorem C7_emit_clone_witness :
    emit_clone (Value.obj [("a", Value.num (.posInt 1))]) []
        (.view [PathElement.key "a"])
      = .ok (Value.obj [("a", Value.num (.posInt 1))], [Value.num (.posInt 1)]) :=
  (C7_emit_clone_nondestructive (Value.obj [("a", Value.num (.posInt 1))]) []
    [PathElement.key "a"] (Value.num (.posInt 1)) rfl).1

/-- C8: `run` is all-or-nothing: a load failure or a script fault makes it
return that error, dropping every document already collected in the output
vector; only a fault-free execution returns the emitted documents, in
emission order. -/
theorem C8_run_all_or_nothing (exec : ScriptExec) :
    (∀ e, run (some e) exec = .error e) ∧
    (∀ e, exec.fault = some e → run none exec = .error e) ∧
    (exec.fault = none → run none exec = .ok exec.emitted) := by
  refine ⟨fun e => rfl, fun e he => ?_, fun hn => ?_⟩
  · simp [run, he]
  · simp [run, hn]

theorem C8_run_all_or_nothing_witness :
    run none ⟨[Value.null, Value.bool true], some .scriptRuntimeFailure⟩
      = .error .scriptRuntimeFailure ∧
    run none ⟨[Value.null, Value.bool true], none⟩
      = .ok [Value.null, Value.bool true] :=
  ⟨(C8_run_all_or_nothing ⟨[Value.null, Value.bool true],
      some .scriptRuntimeFailure⟩).2.1 .scriptRuntimeFailure rfl,
   (C8_run_all_or_nothing ⟨[Value.null, Value.bool true], none⟩).2.2 rfl⟩

/-- C10: `emit` and `emit_clone` on a userdata that is not a `SharedValue`
do not fail: `borrow::<SharedValue>()` errs and `map_or` substitutes
`Value::Null`, which is appended to the output; the root is untouched. -/
theorem C10_foreign_userdata (root : Value) (out : List Value) :
    emit root out .foreign = .ok (root, out ++ [Value.null]) ∧
    emit_clone root out .foreign = .ok (root, out ++ [Value.null]) :=
  ⟨rfl, rfl⟩

/-- C2 counterexample: `json_to_lua` wraps an `Array`/`Object` into a
`SharedValue` userdata, and `lua_to_json` maps every userdata to `Null`
through its catch-all arm — so already the empty array does not round-trip. -/
theorem C2_counterexample :
    lua_to_json (json_to_lua (Value.arr [])) ≠ Value.arr [] := nofun

/-- C2 (amended): the round trip `lua_to_json ∘ json_to_lua` is the
identity on every scalar document value (whose number, if any, satisfies
serde's representation invariants with an `i64`-range integer part), but a
container (`Array`/`Object`) converts to an opaque `SharedValue` userdata,
which `lua_to_json` maps to `Null`: containers do not round-trip through
this pair of functions. -/
theorem C2_roundtrip_scalars (v : Value)
    (hs : v.isScalar = true) (hn : v.scalarNumOk = true) :
    lua_to_json (json_to_lua v) = v ∧
    (∀ a : List Value, lua_to_json (json_to_lua (Value.arr a)) = Value.null) ∧
    (∀ m : List (String × Value),
      lua_to_json (json_to_lua (Value.obj m)) = Value.null) := by
  refine ⟨?_, fun a => rfl, fun m => rfl⟩
  cases v with
  | null => rfl
  | bool b => rfl
  | str s => rfl
  | num n =>
    cases n with
    | posInt m =>
      have hm : m ≤ 2 ^ 63 - 1 := by
        simpa [Value.scalarNumOk, JNumber.fitsI64] using hn
      have hm2 : m ≤ 9223372036854775807 := by omega
      have hneg : ¬ ((m : Int) < 0) := by omega
      simp [json_to_lua, JNumber.as_i64, hm2, lua_to_json, JNumber.fromI64, hneg]
    | negInt i =>
      have hi : -(2 ^ 63) ≤ i ∧ i < 0 := by
        simpa [Value.scalarNumOk, JNumber.fitsI64] using hn
      simp [json_to_lua, JNumber.as_i64, lua_to_json, JNumber.fromI64, hi.2]
    | float f =>
      have hf : f.isFinite = true := by
        simpa [Value.scalarNumOk, JNumber.fitsI64] using hn
      simp [json_to_lua, JNumber.as_i64, JNumber.as_f64, lua_to_json,
        JNumber.from_f64, hf]
  | arr a => simp [Value.isScalar] at hs
  | obj m => simp [Value.isScalar] at hs

theorem C2_roundtrip_scalars_witness :
    lua_to_json (json_to_lua (Value.num (.negInt (-5)))) = Value.num (.negInt (-5)) :=
  (C2_roundtrip_scalars (Value.num (.negInt (-5))) rfl (by decide)).1

/-- C5: indexed set with an integer key `i` on an array node: when the
0-based position `i-1` is in bounds the slot is overwritten with the
converted value; otherwise (including every `i ≤ 0`) the call is a silent
no-op — the array is returned unchanged and the handler still succeeds
(no error).  Stated for `i64` keys above `i64::MIN` and arrays of
representable (`< 2^63`) length. -/
theorem C5_newindex_array (a : List Value) (i : Int) (val : LuaValue) :
    (1 ≤ i → i < 2 ^ 63 → (i - 1).toNat < a.length →
      newIndexHandler (.arr a) (.integer i) val
        = some (.arr (a.set (i - 1).toNat (lua_to_json val)))) ∧
    (-(2 ^ 63) < i → i < 2 ^ 63 → (a.length : Int) < 2 ^ 63 →
      ¬(1 ≤ i ∧ (i - 1).toNat < a.length) →
      newIndexHandler (.arr a) (.integer i) val = some (.arr a)) := by
  constructor
  · intro h1 h2 hidx
    have hmod : ((i - 1) % 2 ^ 64).toNat = (i - 1).toNat := by omega
    simp only [newIndexHandler]
    rw [hmod, if_pos hidx]
  · intro hlo hhi hlen hnot
    have hni : ¬ ((i - 1) % 2 ^ 64).toNat < a.length := by omega
    simp only [newIndexHandler]
    rw [if_neg hni]

theorem C5_newindex_array_witness :
    newIndexHandler (.arr [Value.null, Value.null]) (.integer 2) (.boolean true)
      = some (.arr ([Value.null, Value.null].set ((2:Int) - 1).toNat
          (lua_to_json (.boolean true)))) ∧
    newIndexHandler (.arr [Value.null]) (.integer 5) (.boolean true)
      = some (.arr [Value.null]) ∧
    newIndexHandler (.arr [Value.null]) (.integer 0) (.boolean true)
      = some (.arr [Value.null]) ∧
    newIndexHandler (.arr [Value.null]) (.integer (-3)) (.boolean true)
      = some (.arr [Value.null]) :=
  ⟨(C5_newindex_array [Value.null, Value.null] 2 (.boolean true)).1
      (by decide) (by decide) (by decide),
   (C5_newindex_array [Value.null] 5 (.boolean true)).2
      (by decide) (by decide) (by decide) (by decide),
   (C5_newindex_array [Value.null] 0 (.boolean true)).2
      (by decide) (by decide) (by decide) (by decide),
   (C5_newindex_array [Value.null] (-3) (.boolean true)).2
      (by decide) (by decide) (by decide) (by decide)⟩

/-- C9: a table entry whose key is a non-positive integer, or neither an
integer nor a string, clears `is_array` but contributes nothing: the
collected array and map are unchanged, so the entry's value appears under
no key of the result — e.g. the boolean-keyed entry of
`{1:"a", [true]:"B"}` and the zero-keyed entry of `{[0]:"z"}` are dropped
(both tables still flip to objects). -/
theorem C9_discarded_keys :
    (∀ (k v : LuaValue) (rest : List (LuaValue × LuaValue))
        (arr : List Value) (map : List (String × Value)) (ia : Bool),
      discardedKey k = true →
      tableLoop ((k, v) :: rest) arr map ia = tableLoop rest arr map false) ∧
    lua_to_json (.table [(.integer 1, .string "a"), (.boolean true, .string "B")])
      = .obj [("1", .str "a")] ∧
    lua_to_json (.table [(.integer 0, .string "z")]) = .obj [] := by
  refine ⟨?_, rfl, rfl⟩
  intro k v rest arr map ia hk
  cases k with
  | integer i =>
    have hi : ¬ 0 < i := by
      have := of_decide_eq_true (by simpa [discardedKey] using hk)
      omega
    simp [tableLoop, hi]
  | string s => simp [discardedKey] at hk
  | nil => rfl
  | boolean b => rfl
  | number f => rfl
  | table t => rfl
  | userdata u => rfl

theorem C9_discarded_keys_witness :
    tableLoop [((.boolean true : LuaValue), (.string "B" : LuaValue))]
        [Value.str "a"] [] true
      = tableLoop [] [Value.str "a"] [] false :=
  C9_discarded_keys.1 (.boolean true) (.string "B") [] [Value.str "a"] [] true rfl

theorem tableLoop_contiguous (vs : List LuaValue) :
    ∀ (k : Nat) (arr : List Value) (map : List (String × Value)),
      arr.length = k →
      tableLoop (enumKeys k vs) arr map true = .arr (arr ++ vs.map lua_to_json) := by
  induction vs with
  | nil =>
    intro k arr map h
    simp [enumKeys, tableLoop]
  | cons v vs ih =>
    intro k arr map h
    have hpos : (0 : Int) < (k : Int) + 1 := by omega
    have hidx : (((k : Int) + 1) - 1).toNat = arr.length := by omega
    simp only [enumKeys, tableLoop, if_pos hpos, hidx, ne_eq, not_true_eq_false,
      if_neg, ite_false, ite_true]
    rw [ih (k + 1) (arr ++ [lua_to_json v]) map (by simp [h])]
    simp

theorem tableLoop_flipped (entries : List (LuaValue × LuaValue)) :
    ∀ (arr : List Value) (map : List (String × Value)),
      tableLoop entries arr map false
        = .obj (reinsertArr (objLoop entries map) arr) := by
  induction entries with
  | nil => intro arr map; rfl
  | cons p rest ih =>
    obtain ⟨k, v⟩ := p
    intro arr map
    cases k with
    | integer i =>
      by_cases hi : 0 < i
      · simp [tableLoop, objLoop, hi, ih]
      · simp [tableLoop, objLoop, hi, ih]
    | string s => simp [tableLoop, objLoop, ih]
    | nil => simp [tableLoop, objLoop, ih]
    | boolean b => simp [tableLoop, objLoop, ih]
    | number f => simp [tableLoop, objLoop, ih]
    | table t => simp [tableLoop, objLoop, ih]
    | userdata u => simp [tableLoop, objLoop, ih]

/-- C4: the table classification of `lua_to_json`: (i) a table whose keys
are the contiguous integers `1..n` (in iteration order) converts to the
array of its converted values; (ii) an empty table converts to the empty
array; (iii) once the classification has flipped to object, the remainder
of the loop builds the map and the already-collected elements are
re-inserted under their stringified 1-based indices; and the two concrete
spec examples: `{1:"a", 3:"b"}` (gap) becomes the object
`{"1":"a","3":"b"}` while `{1:"a",2:"b",3:"c"}` becomes the array
`["a","b","c"]`. -/
theorem C4_classification :
    (∀ vs : List LuaValue,
      lua_to_json (.table (enumKeys 0 vs)) = .arr (vs.map lua_to_json)) ∧
    lua_to_json (.table []) = .arr [] ∧
    (∀ (entries : List (LuaValue × LuaValue)) (arr : List Value)
        (map : List (String × Value)),
      tableLoop entries arr map false
        = .obj (reinsertArr (objLoop entries map) arr)) ∧
    lua_to_json (.table [(.integer 1, .string "a"), (.integer 3, .string "b")])
      = .obj [("1", .str "a"), ("3", .str "b")] ∧
    lua_to_json
        (.table [(.integer 1, .string "a"), (.integer 2, .string "b"),
          (.integer 3, .string "c")])
      = .arr [.str "a", .str "b", .str "c"] := by
  refine ⟨?_, rfl, fun entries arr map => tableLoop_flipped entries arr map,
    rfl, rfl⟩
  intro vs
  show tableLoop (enumKeys 0 vs) [] [] true = _
  rw [tableLoop_contiguous vs 0 [] [] rfl]
  simp

theorem iterateWithMutations_visits (snap : List (LuaValue × LuaValue)) :
    ∀ (muts : List (Value → Value)) (root : Value),
      (iterateWithMutations snap muts root).1 = snap := by
  induction snap with
  | nil => intro muts root; rfl
  | cons item rest ih =>
    intro muts root
    simp [iterateWithMutations, ih]

theorem modifyAt_append (p : List PathElement) :
    ∀ (q : List PathElement) (root : Value) (f : Value → Option Value),
      modifyAt root (p ++ q) f
        = modifyAt root p (fun node => modifyAt node q f) := by
  induction p with
  | nil => intro q root f; rfl
  | cons e rest ih =>
    intro q root f
    cases e with
    | key k =>
      cases root <;> simp only [List.cons_append, modifyAt]
      next m => cases Smap.find m k <;> simp [ih]
    | index i =>
      cases root <;> simp only [List.cons_append, modifyAt]
      next a => cases a.get? i <;> simp [ih]

/-- C6: `__pairs_impl` clones the resolved node at the moment iteration is
requested and the iterator ranges over exactly that snapshot: whatever
mutations the script applies to the live root between iterator calls —
including through yielded subviews — the visited (key, value) items are
exactly the snapshot's items, in order.  A container-typed entry is yielded
as a subview built against the original View's root and path extended by
the entry's element, and a write through such a subview is a mutation of
the live root at the parent view's path (not of the snapshot). -/
theorem C6_snapshot_iteration (root : Value) (p : List PathElement)
    (snap : Value) (h : resolveWalk root p = some snap) :
    pairsImpl root p = some (pairsImplList p snap) ∧
    (∀ (muts : List (Value → Value)) (root2 : Value),
      (iterateWithMutations (pairsImplList p snap) muts root2).1
        = pairsImplList p snap) ∧
    (∀ (child : Value) (elem : PathElement), child.isScalar = false →
      json_subhandle_to_lua p child elem = .userdata (.shared (p ++ [elem]))) ∧
    (∀ (root2 : Value) (elem : PathElement) (key val : LuaValue),
      newIndexThrough root2 (p ++ [elem]) key val
        = modifyAt root2 p (fun node => newIndexThrough node [elem] key val)) := by
  refine ⟨by simp [pairsImpl, h],
    fun muts root2 => iterateWithMutations_visits _ muts root2, ?_, ?_⟩
  · intro child elem hc
    cases child with
    | arr a => rfl
    | obj m => rfl
    | null => simp [Value.isScalar] at hc
    | bool b => simp [Value.isScalar] at hc
    | num n => simp [Value.isScalar] at hc
    | str s => simp [Value.isScalar] at hc
  · intro root2 elem key val
    exact modifyAt_append p [elem] root2 _

theorem C6_snapshot_iteration_witness :
    pairsImpl (Value.obj [("a", Value.num (.posInt 1))]) []
      = some (pairsImplList [] (Value.obj [("a", Value.num (.posInt 1))])) :=
  (C6_snapshot_iteration (Value.obj [("a", Value.num (.posInt 1))]) []
    (Value.obj [("a", Value.num (.posInt 1))]) rfl).1
